import Mathlib

/-!
Verification of `src/scripts/analyze-required-expressions.py`: the required-tag
dependency-closure resolver, the tag-name normalizer, the module expression
extractor, the pattern classifier and the aggregator, shallowly embedded in
Lean 4.  Python strings are modelled as `List Char`, JSON values as an
inductive type, Python sets of tags as duplicate-free lists (an element is
added only after a membership test, exactly as the code tests `in` before
`add`), and subprocess/file effects as explicit parameters.
-/

namespace ExifOxide

/-- Python strings are modelled as lists of characters. -/
abbrev Str := List Char

/-- The composite-dependency mapping `tag -> [dependency tag names]` built by
`load_composite_dependencies` (a Python dict, modelled as an association
list with distinct keys; only lookup and membership are used). -/
abbrev Graph := List (Str × List Str)

/-- Dictionary lookup: models `tag in composite_deps` / `composite_deps[tag]`
(lines 94-95 of analyze-required-expressions.py). -/
def lookupDeps : Graph → Str → Option (List Str)
  | [], _ => none
  | (k, v) :: rest, t => if k = t then some v else lookupDeps rest t

/-- Inner loop of the closure pass (lines 95-99): for each dependency `dep` of
the current tag, `if dep not in required_tags: required_tags.add(dep); added = True`.
The set is a duplicate-free list; `add` appends. -/
def addDeps (req : List Str) (deps : List Str) (added : Bool) : List Str × Bool :=
  match deps with
  | [] => (req, added)
  | d :: ds =>
    if d ∈ req then addDeps req ds added
    else addDeps (req ++ [d]) ds true

/-- One full pass of the closure loop (lines 91-99): iterate over the snapshot
`current_tags = list(required_tags)` taken at the start of the pass, and for
every tag that is a key of the dependency graph add its missing dependencies. -/
def passTags (g : Graph) (current : List Str) (req : List Str) (added : Bool) :
    List Str × Bool :=
  match current with
  | [] => (req, added)
  | t :: ts =>
    match lookupDeps g t with
    | none => passTags g ts req added
    | some deps =>
      let p := addDeps req deps added
      passTags g ts p.1 p.2

/-- The bounded closure loop of `load_required_tags_with_dependencies`
(lines 86-99): `while added and iterations < 10`.  `fuel` stands for the
remaining passes `10 - iterations`; the returned triple is the final tag set,
the number of passes actually executed and the final value of `added`. -/
def closureLoop (g : Graph) (req : List Str) (fuel : Nat) (added : Bool) :
    List Str × Nat × Bool :=
  match fuel with
  | 0 => (req, 0, added)
  | f + 1 =>
    if added then
      let p := passTags g req req false
      let r := closureLoop g p.1 f p.2
      (r.1, r.2.1 + 1, r.2.2)
    else (req, 0, added)

/-- Transitive-closure resolution of `load_required_tags_with_dependencies`
applied to a seed set: `added = True; iterations = 0; while added and
iterations < 10: ...` (lines 86-99).  Returns (final set, passes, final added). -/
def resolveClosure (g : Graph) (seed : List Str) : List Str × Nat × Bool :=
  closureLoop g seed 10 true

/-- The resolved required-tag set. -/
def resolvedSet (g : Graph) (seed : List Str) : List Str :=
  (resolveClosure g seed).1

/-- Number of passes the closure loop executed. -/
def resolvedPasses (g : Graph) (seed : List Str) : Nat :=
  (resolveClosure g seed).2.1

/-- Value of the `added` flag when the closure loop exited. -/
def resolvedAdded (g : Graph) (seed : List Str) : Bool :=
  (resolveClosure g seed).2.2

/-- Dependencies of a tag, empty when the tag is not a key of the graph. -/
def depsOf (g : Graph) (t : Str) : List Str := (lookupDeps g t).getD []

/-- One step of reachability: add every dependency of a member. -/
def reachStep (g : Graph) (s : List Str) : List Str :=
  s ++ ((s.map (depsOf g)).flatten.filter (fun d => decide (d ∉ s)))

/-- Reachability saturated by iterating `reachStep`. -/
def reachN (g : Graph) : Nat → List Str → List Str
  | 0, s => s
  | n + 1, s => reachN g n (reachStep g s)

/-- Fuel certainly larger than the number of tags mentioned by the graph. -/
def graphSize (g : Graph) : Nat :=
  g.length + (g.map (fun p => p.2.length)).sum + 1

/-- A graph is acyclic when no key is reachable from its own dependencies. -/
def Acyclic (g : Graph) : Prop :=
  ∀ p ∈ g, p.1 ∉ reachN g (graphSize g) (depsOf g p.1)

instance : DecidablePred Acyclic := fun g => by
  unfold Acyclic; infer_instance

/-- Tag name used by the C1 scenario. -/
def strA : Str := ['A']

/-- Tag name used by the C1 scenario. -/
def strB : Str := ['B']

/-- Tag name used by the C1 scenario. -/
def strC : Str := ['C']

/-- Dependency graph of the C1 scenario, `A` requires `B`, `B` requires `C`. -/
def c1Graph : Graph := [(strA, [strB]), (strB, [strC])]

/-- Tiny settled instance for the C2 witness. -/
def c2WitnessGraph : Graph := [(['a'], [['b']])]

/-- Tag `Ai` of the twelve-tag dependency chain, a single character. -/
def chainTag (n : Nat) : Str := [Char.ofNat (65 + n)]

/-- Acyclic dependency chain `A0 -> A1 -> ... -> A11` (eleven edges, so the
true closure of `{A0}` needs eleven passes, one more than the cap). -/
def chainGraph : Graph := (List.range 11).map (fun i => (chainTag i, [chainTag (i + 1)]))

/-- Characters of the class `[a-z0-9]`, the complement of the class removed
by `re.sub(r'[^a-z0-9]', '', ...)` at line 106. -/
def isLowerAlnum (c : Char) : Bool :=
  ('a' ≤ c && c ≤ 'z') || ('0' ≤ c && c ≤ '9')

/-- Models `normalize_tag_name` (lines 104-106):
`re.sub(r'[^a-z0-9]', '', tag.lower())`.  Python `str.lower()` is modelled
per character by `Char.toLower`, the basic-latin case mapping the tag names
handled by the script fall under. -/
def normalize_tag_name (tag : Str) : Str :=
  (tag.map Char.toLower).filter isLowerAlnum

/-- JSON values, the results of `json.loads` on the extractor's output lines. -/
inductive JVal where
  | jnull : JVal
  | jbool : Bool → JVal
  | jnum : Int → JVal
  | jstr : Str → JVal
  | jarr : List JVal → JVal
  | jobj : List (Str × JVal) → JVal

/-- Dictionary lookup on a parsed JSON object (Python `dict` access; JSON
object keys are unique, so first-match lookup models it). -/
def jlookup : List (Str × JVal) → Str → Option JVal
  | [], _ => none
  | (k, v) :: rest, t => if k = t then some v else jlookup rest t

/-- The expression-indicator characters of lines 168 and 192. -/
def indicatorChars : List Char := ['$', '(', '?', '/', '"', '=']

/-- Models `any(c in expr for c in ['$', '(', '?', '/', '"', '='])`. -/
def hasIndicator (s : Str) : Bool := indicatorChars.any (fun c => s.contains c)

/-- One collected record `{'tag': full_name, 'expression': expr}`. -/
structure ExprRecord where
  tag : Str
  expression : JVal

/-- The three per-kind record lists built by `extract_module_expressions`
(`expressions = {'ValueConv': [], 'PrintConv': [], 'Condition': []}`). -/
structure Extraction where
  valueConv : List ExprRecord
  printConv : List ExprRecord
  condition : List ExprRecord

/-- Kind-wise concatenation of two extraction results. -/
def Extraction.append (a b : Extraction) : Extraction :=
  ⟨a.valueConv ++ b.valueConv, a.printConv ++ b.printConv, a.condition ++ b.condition⟩

/-- The empty extraction result. -/
def emptyExtraction : Extraction := ⟨[], [], []⟩

/-- Key string "type". -/
def kType : Str := "type".data

/-- Key string "data". -/
def kData : Str := "data".data

/-- Key string "Name". -/
def kName : Str := "Name".data

/-- Key string "ValueConv". -/
def kValueConv : Str := "ValueConv".data

/-- Key string "PrintConv". -/
def kPrintConv : Str := "PrintConv".data

/-- Key string "Condition". -/
def kCondition : Str := "Condition".data

/-- Literal "hash". -/
def kHash : Str := "hash".data

/-- Literal "array". -/
def kArray : Str := "array".data

/-- Models the per-kind collection step (lines 164-172 and 188-196): `if
expr_type in tag_def: expr = tag_def[expr_type]; if isinstance(expr, str) and
any(c in expr for c in [...]): expressions[expr_type].append({...})`. -/
def exprRecords (fullName : Str) (defKvs : List (Str × JVal)) (key : Str) :
    List ExprRecord :=
  match jlookup defKvs key with
  | some (JVal.jstr s) => if hasIndicator s then [⟨fullName, JVal.jstr s⟩] else []
  | _ => []

/-- Records a matching tag definition contributes, for all three kinds. -/
def collectDefExprs (fullName : Str) (defKvs : List (Str × JVal)) : Extraction :=
  ⟨exprRecords fullName defKvs kValueConv,
   exprRecords fullName defKvs kPrintConv,
   exprRecords fullName defKvs kCondition⟩

/-- Models the `hash` symbol branch (lines 151-172): iterate the symbol's
mapping, skip non-dict tag definitions, keep tags whose normalized name is in
the normalized priority set, and collect their expressions under the full
name `f"{module_name}.{tag_name}"`. -/
def extractHashEntries (moduleName : Str) (normPrio : List Str) :
    List (Str × JVal) → Extraction
  | [] => emptyExtraction
  | (tagName, tagDef) :: rest =>
    match tagDef with
    | JVal.jobj defKvs =>
      if normalize_tag_name tagName ∈ normPrio then
        (collectDefExprs (moduleName ++ '.' :: tagName) defKvs).append
          (extractHashEntries moduleName normPrio rest)
      else extractHashEntries moduleName normPrio rest
    | _ => extractHashEntries moduleName normPrio rest

/-- Models the `array` symbol branch (lines 175-196): iterate list items,
keep dict items carrying a `Name`, and on a normalized-name match collect the
item's expressions.  `Except.error` models the `AttributeError` Python raises
when `normalize_tag_name` is applied to a non-string `Name` value. -/
def extractArrayItems (moduleName : Str) (normPrio : List Str) :
    List JVal → Except Unit Extraction
  | [] => Except.ok emptyExtraction
  | item :: rest =>
    match item with
    | JVal.jobj kvs =>
      match jlookup kvs kName with
      | none => extractArrayItems moduleName normPrio rest
      | some (JVal.jstr tagName) =>
        if normalize_tag_name tagName ∈ normPrio then
          match extractArrayItems moduleName normPrio rest with
          | Except.error e => Except.error e
          | Except.ok r =>
            Except.ok ((collectDefExprs (moduleName ++ '.' :: tagName) kvs).append r)
        else extractArrayItems moduleName normPrio rest
      | some _ => Except.error ()
    | _ => extractArrayItems moduleName normPrio rest

/-- Per-symbol dispatch of `extract_module_expressions` (lines 143-196):
non-dict symbols are skipped, `symbol_data = symbol.get('data', {})`, and the
`type` field selects the hash or array branch. -/
def extractSymbol (moduleName : Str) (normPrio : List Str) (sym : JVal) :
    Except Unit Extraction :=
  match sym with
  | JVal.jobj kvs =>
    let sdata := (jlookup kvs kData).getD (JVal.jobj [])
    match jlookup kvs kType with
    | some (JVal.jstr t) =>
      if t = kHash then
        match sdata with
        | JVal.jobj entries => Except.ok (extractHashEntries moduleName normPrio entries)
        | _ => Except.ok emptyExtraction
      else if t = kArray then
        match sdata with
        | JVal.jarr items => extractArrayItems moduleName normPrio items
        | _ => Except.ok emptyExtraction
      else Except.ok emptyExtraction
    | _ => Except.ok emptyExtraction
  | _ => Except.ok emptyExtraction

/-- Sequential processing of all parsed symbols (`for symbol in all_data`),
concatenating the per-kind record lists. -/
def extractSymbols (moduleName : Str) (normPrio : List Str) :
    List JVal → Except Unit Extraction
  | [] => Except.ok emptyExtraction
  | sym :: rest =>
    match extractSymbol moduleName normPrio sym with
    | Except.error e => Except.error e
    | Except.ok cur =>
      match extractSymbols moduleName normPrio rest with
      | Except.error e => Except.error e
      | Except.ok r => Except.ok (cur.append r)

/-- Outcome of the external `field_extractor.pl` subprocess (lines 113-127),
given at the boundary: either a non-zero exit status (`CalledProcessError`),
or the decoded standard output already split into lines and passed through
`json.loads` — `none` stands for a line the parser rejects, which the code
skips (`except json.JSONDecodeError: pass`). -/
inductive SubprocResult where
  | failed : SubprocResult
  | output : List (Option JVal) → SubprocResult

/-- Models `extract_module_expressions` (lines 108-198).  The module name
(`Path(module_path).stem`) and the subprocess outcome are parameters; the
normalized priority set is `{normalize_tag_name(tag) for tag in priority_tags}`
(membership-only, so a list models the set).  `Except.error` models a Python
exception escaping the function. -/
def extract_module_expressions (moduleName : Str) (priorityTags : List Str)
    (subproc : SubprocResult) : Except Unit Extraction :=
  match subproc with
  | SubprocResult.failed => Except.ok emptyExtraction
  | SubprocResult.output lines =>
    extractSymbols moduleName (priorityTags.map normalize_tag_name) (lines.filterMap id)

/-- All records of an extraction result, over the three kinds. -/
def allRecords (e : Extraction) : List ExprRecord :=
  e.valueConv ++ e.printConv ++ e.condition

/-- A record whose expression is a string containing an indicator character
— the inclusion test of lines 168 and 192. -/
def GoodRec (r : ExprRecord) : Prop :=
  ∃ s, r.expression = JVal.jstr s ∧ hasIndicator s = true

/-- The three expression kinds iterated at lines 164 and 188. -/
inductive ExprKind where
  | vc : ExprKind
  | pc : ExprKind
  | cond : ExprKind

/-- The dictionary key belonging to an expression kind. -/
def kindKey : ExprKind → Str
  | ExprKind.vc => kValueConv
  | ExprKind.pc => kPrintConv
  | ExprKind.cond => kCondition

/-- The record list an extraction result holds for one kind. -/
def Extraction.ofKind : Extraction → ExprKind → List ExprRecord
  | e, ExprKind.vc => e.valueConv
  | e, ExprKind.pc => e.printConv
  | e, ExprKind.cond => e.condition

/-- Module name of the C4 witness. -/
def wModule : Str := "GPS".data

/-- Tag name of the C4 witness. -/
def wTag : Str := "GPSLatitude".data

/-- Expression of the C4 witness, containing the indicator `$`. -/
def wExpr : Str := "$val".data

/-- Tag definition mapping of the C4 witness. -/
def wDefKvs : List (Str × JVal) := [(kCondition, JVal.jstr wExpr)]

/-- Hash entries of the C4 witness. -/
def wEntries : List (Str × JVal) := [(wTag, JVal.jobj wDefKvs)]

/-- Opening brace character. -/
def lbrace : Char := Char.ofNat 123

/-- Closing brace character. -/
def rbrace : Char := Char.ofNat 125

/-- Single-quote character. -/
def squote : Char := Char.ofNat 39

/-- Lower-case hexadecimal digit. -/
def hexDigit (n : Nat) : Char :=
  if n < 10 then Char.ofNat (48 + n) else Char.ofNat (87 + n)

/-- Four lower-case hexadecimal digits. -/
def hex4 (n : Nat) : Str :=
  [hexDigit (n / 4096 % 16), hexDigit (n / 256 % 16), hexDigit (n / 16 % 16), hexDigit (n % 16)]

/-- Join a list of strings with a separator. -/
def joinSep (sep : Str) : List Str → Str
  | [] => []
  | [x] => x
  | x :: xs => x ++ sep ++ joinSep sep xs

/-- Quote character CPython `repr` picks for a string: single quote, unless
the string contains a single quote and no double quote. -/
def reprQuote (s : Str) : Char :=
  if s.contains squote && !(s.contains '"') then '"' else squote

/-- Escape of one character inside a CPython string repr quoted by `q`:
backslash, the quote, newline, carriage return and tab get two-character
escapes; other C0 controls and delete get `\xXX`.  (The repr of non-ASCII
characters additionally depends on Unicode printability classes, which are
not modelled; no tag expression the script meets needs them.) -/
def pyReprEscChar (q : Char) (c : Char) : Str :=
  if c = '\\' then ['\\', '\\']
  else if c = q then ['\\', q]
  else if c = Char.ofNat 10 then ['\\', 'n']
  else if c = Char.ofNat 13 then ['\\', 'r']
  else if c = Char.ofNat 9 then ['\\', 't']
  else if c.toNat < 32 || c.toNat = 127 then
    ['\\', 'x', hexDigit (c.toNat / 16), hexDigit (c.toNat % 16)]
  else [c]

/-- CPython `repr` of a string. -/
def pyReprStr (s : Str) : Str :=
  let q := reprQuote s
  q :: (s.flatMap (pyReprEscChar q) ++ [q])

mutual

/-- Models CPython `str`/`repr` rendering of a decoded-JSON value, as invoked
by `str(item['expression'])` on non-string values (line 217): dicts render as
`{'key': value, ...}`, lists as `[...]`, `None`/`True`/`False` by name.
JSON numbers are modelled as integers. -/
def pyRepr : JVal → Str
  | JVal.jnull => "None".data
  | JVal.jbool true => "True".data
  | JVal.jbool false => "False".data
  | JVal.jnum i => i.repr.data
  | JVal.jstr s => pyReprStr s
  | JVal.jarr xs => '[' :: (joinSep (", ".data) (pyReprList xs) ++ [']'])
  | JVal.jobj kvs => lbrace :: (joinSep (", ".data) (pyReprObj kvs) ++ [rbrace])

/-- Renders the elements of a list, in order. -/
def pyReprList : List JVal → List Str
  | [] => []
  | x :: xs => pyRepr x :: pyReprList xs

/-- Renders the `'key': value` pairs of a dict, in order. -/
def pyReprObj : List (Str × JVal) → List Str
  | [] => []
  | (k, v) :: rest => (pyReprStr k ++ ':' :: ' ' :: pyRepr v) :: pyReprObj rest

end

/-- Models `str(item['expression'])` (line 217) and
`str(item['expression'])` at line 288: the identity on strings, CPython
`repr`-style rendering on other decoded-JSON values. -/
def pyStr : JVal → Str
  | JVal.jstr s => s
  | v => pyRepr v

/-- Escape of one character under `json.dumps` defaults: `"` and `\` and the
short control escapes, `\uXXXX` for other controls and (with the default
`ensure_ascii`) for every character outside printable ASCII, surrogate pairs
beyond the basic multilingual plane. -/
def jsonEscChar (c : Char) : Str :=
  if c = '"' then ['\\', '"']
  else if c = '\\' then ['\\', '\\']
  else if c = Char.ofNat 10 then ['\\', 'n']
  else if c = Char.ofNat 9 then ['\\', 't']
  else if c = Char.ofNat 13 then ['\\', 'r']
  else if c = Char.ofNat 8 then ['\\', 'b']
  else if c = Char.ofNat 12 then ['\\', 'f']
  else if c.toNat < 32 then '\\' :: 'u' :: hex4 c.toNat
  else if c.toNat ≤ 126 then [c]
  else if c.toNat ≤ 65535 then '\\' :: 'u' :: hex4 c.toNat
  else
    ('\\' :: 'u' :: hex4 (55296 + (c.toNat - 65536) / 1024)) ++
      ('\\' :: 'u' :: hex4 (56320 + (c.toNat - 65536) % 1024))

mutual

/-- Models `json.dumps(value)` with default options (line 288): double-quoted
escaped strings, `, ` and `: ` separators.  JSON numbers modelled as
integers. -/
def jsonDumps : JVal → Str
  | JVal.jnull => "null".data
  | JVal.jbool true => "true".data
  | JVal.jbool false => "false".data
  | JVal.jnum i => i.repr.data
  | JVal.jstr s => '"' :: (s.flatMap jsonEscChar ++ ['"'])
  | JVal.jarr xs => '[' :: (joinSep (", ".data) (jsonDumpsList xs) ++ [']'])
  | JVal.jobj kvs => lbrace :: (joinSep (", ".data) (jsonDumpsObj kvs) ++ [rbrace])

/-- Renders the elements of a JSON array, in order. -/
def jsonDumpsList : List JVal → List Str
  | [] => []
  | x :: xs => jsonDumps x :: jsonDumpsList xs

/-- Renders the `"key": value` members of a JSON object, in order. -/
def jsonDumpsObj : List (Str × JVal) → List Str
  | [] => []
  | (k, v) :: rest =>
    (('"' :: (k.flatMap jsonEscChar ++ ['"'])) ++ ':' :: ' ' :: jsonDumps v) :: jsonDumpsObj rest

end

/-- Tests the duck-typed structured-value branch `isinstance(expr, dict)`
(lines 240 and 288). -/
def isDictJV : JVal → Bool
  | JVal.jobj _ => true
  | _ => false

/-- Dedup key of a collected record (line 288):
`json.dumps(expr) if isinstance(expr, dict) else str(expr)`. -/
def exprKey (v : JVal) : Str := if isDictJV v then jsonDumps v else pyStr v

/-- Models Python `needle in hay` prefix test helper. -/
def strStarts : Str → Str → Bool
  | [], _ => true
  | _ :: _, [] => false
  | a :: as, b :: bs => a = b && strStarts as bs

/-- Models Python substring containment `needle in hay`. -/
def containsSub (needle : Str) : Str → Bool
  | [] => strStarts needle []
  | c :: rest => strStarts needle (c :: rest) || containsSub needle rest

/-- Line 221: `'sprintf' in expr`. -/
def classifySprintf (e : Str) : Bool := containsSub "sprintf".data e

/-- Line 223: `'unpack' in expr`. -/
def classifyUnpack (e : Str) : Bool := containsSub "unpack".data e

/-- Line 225: `'pack' in expr`. -/
def classifyPack (e : Str) : Bool := containsSub "pack".data e

/-- Line 227: `'?' in expr and ':' in expr`. -/
def classifyTernary (e : Str) : Bool := e.contains '?' && e.contains ':'

/-- Line 229: `'=~' in expr and '/' in expr`, guard of both regex buckets. -/
def classifyRegexCond (e : Str) : Bool := containsSub ['=', '~'] e && e.contains '/'

/-- Lines 229-231: the guard together with `'s/' in expr`. -/
def classifyRegexSubstitute (e : Str) : Bool :=
  classifyRegexCond e && containsSub ['s', '/'] e

/-- Lines 229-233: the guard with `'s/' in expr` failing. -/
def classifyRegexMatch (e : Str) : Bool :=
  classifyRegexCond e && !(containsSub ['s', '/'] e)

/-- The operator strings of line 234. -/
def arithmeticOps : List Str := [['+'], ['-'], ['*'], ['/'], ['%'], ['*', '*']]

/-- Line 234: `any(op in expr for op in ['+', '-', '*', '/', '%', '**'])`. -/
def classifyArithmetic (e : Str) : Bool := arithmeticOps.any (fun op => containsSub op e)

/-- Line 236: `'.' in expr and '"' in expr`. -/
def classifyStringConcat (e : Str) : Bool := e.contains '.' && e.contains '"'

/-- Word character of the regex `\w` (its ASCII core; the tag expressions
classified are ASCII). -/
def isWordChar (c : Char) : Bool :=
  ('a' ≤ c && c ≤ 'z') || ('A' ≤ c && c ≤ 'Z') || ('0' ≤ c && c ≤ '9') || c = '_'

/-- Whitespace of the regex `\s` (ASCII core). -/
def isSpaceChar (c : Char) : Bool :=
  c = ' ' || c = Char.ofNat 9 || c = Char.ofNat 10 || c = Char.ofNat 11 ||
    c = Char.ofNat 12 || c = Char.ofNat 13

/-- Whether `\w+\s*\(` matches starting right after a word character at
`rest`: the pattern's backtracking is equivalent to consuming the maximal
word-character run and then the maximal whitespace run, since a word
character can satisfy neither `\s` nor `\(`. -/
def wordParenAt (rest : Str) : Bool :=
  match (rest.dropWhile isWordChar).dropWhile isSpaceChar with
  | '(' :: _ => true
  | _ => false

/-- Scans for a match of `\b\w+\s*\(`, tracking whether the previous
character was a word character (the `\b` boundary test). -/
def searchWordParenAux : Bool → Str → Bool
  | _, [] => false
  | prevWord, c :: rest =>
    if !prevWord && isWordChar c && wordParenAt rest then true
    else searchWordParenAux (isWordChar c) rest

/-- Line 238: `re.search(r'\b\w+\s*\(', expr)` as a Boolean. -/
def searchWordParen (s : Str) : Bool := searchWordParenAux false s

/-- Line 238 test for the `function_calls` bucket. -/
def classifyFunctionCalls (e : Str) : Bool := searchWordParen e

/-- Line 240: `isinstance(item['expression'], dict) or '{' in expr`. -/
def classifyHashLookups (r : ExprRecord) : Bool :=
  isDictJV r.expression || (pyStr r.expression).contains lbrace

/-- Line 244: `expr.count('(') > 3 or len(expr) > 100`. -/
def classifyComplex (e : Str) : Bool :=
  decide (3 < e.count '(') || decide (100 < e.length)

/-- The tags appended to one category's list by the classification loop
(lines 216-245): each item is tested independently and, on a match, its tag
is appended in encounter order. -/
def patternTags (test : ExprRecord → Bool) (items : List ExprRecord) : List Str :=
  (items.filter test).map (fun r => r.tag)

/-- The eleven category lists built by `analyze_expression_patterns` before
the final deduplication step (lines 202-245). -/
structure PatternsRaw where
  sprintf : List Str
  unpack : List Str
  pack : List Str
  ternary : List Str
  regexMatch : List Str
  regexSubstitute : List Str
  arithmetic : List Str
  stringConcat : List Str
  functionCalls : List Str
  hashLookups : List Str
  complex : List Str

/-- The classification loop of `analyze_expression_patterns`
(lines 216-245), with `expr = str(item['expression'])`. -/
def analyzeRaw (items : List ExprRecord) : PatternsRaw :=
  ⟨patternTags (fun r => classifySprintf (pyStr r.expression)) items,
   patternTags (fun r => classifyUnpack (pyStr r.expression)) items,
   patternTags (fun r => classifyPack (pyStr r.expression)) items,
   patternTags (fun r => classifyTernary (pyStr r.expression)) items,
   patternTags (fun r => classifyRegexMatch (pyStr r.expression)) items,
   patternTags (fun r => classifyRegexSubstitute (pyStr r.expression)) items,
   patternTags (fun r => classifyArithmetic (pyStr r.expression)) items,
   patternTags (fun r => classifyStringConcat (pyStr r.expression)) items,
   patternTags (fun r => classifyFunctionCalls (pyStr r.expression)) items,
   patternTags (fun r => classifyHashLookups r) items,
   patternTags (fun r => classifyComplex (pyStr r.expression)) items⟩

/-- Code-point lexicographic order on strings, the order Python `sorted`
uses on strings. -/
def strLe : Str → Str → Bool
  | [], _ => true
  | _ :: _, [] => false
  | x :: xs, y :: ys =>
    if x.toNat < y.toNat then true
    else if y.toNat < x.toNat then false
    else strLe xs ys

/-- Insertion into a `strLe`-sorted list. -/
def insertStr (x : Str) : List Str → List Str
  | [] => [x]
  | y :: ys => if strLe x y then x :: y :: ys else y :: insertStr x ys

/-- Models Python `sorted` on a list of strings. -/
def sortStrs : List Str → List Str
  | [] => []
  | x :: xs => insertStr x (sortStrs xs)

/-- Models `(sorted(set(v)), len(set(v)))` for a non-empty category list and
the `if v` guard dropping empty ones (line 248). -/
def finishPattern (v : List Str) : Option (List Str × Nat) :=
  if v.isEmpty then none else some (sortStrs v.dedup, v.dedup.length)

/-- The final classification mapping: category name to deduplicated sorted
tag list with its count, empty categories omitted (`none`). -/
structure PatternsResult where
  sprintf : Option (List Str × Nat)
  unpack : Option (List Str × Nat)
  pack : Option (List Str × Nat)
  ternary : Option (List Str × Nat)
  regexMatch : Option (List Str × Nat)
  regexSubstitute : Option (List Str × Nat)
  arithmetic : Option (List Str × Nat)
  stringConcat : Option (List Str × Nat)
  functionCalls : Option (List Str × Nat)
  hashLookups : Option (List Str × Nat)
  complex : Option (List Str × Nat)

/-- Models `analyze_expression_patterns` (lines 200-248). -/
def analyze_expression_patterns (items : List ExprRecord) : PatternsResult :=
  let raw := analyzeRaw items
  ⟨finishPattern raw.sprintf, finishPattern raw.unpack, finishPattern raw.pack,
   finishPattern raw.ternary, finishPattern raw.regexMatch,
   finishPattern raw.regexSubstitute, finishPattern raw.arithmetic,
   finishPattern raw.stringConcat, finishPattern raw.functionCalls,
   finishPattern raw.hashLookups, finishPattern raw.complex⟩

/-- Association lookup in the grouping dictionary. -/
def findTags : List (Str × List Str) → Str → Option (List Str)
  | [], _ => none
  | (k2, ts) :: rest, k => if k2 = k then some ts else findTags rest k

/-- Models `all_expressions[expr_str].append(item['tag'])` on an
insertion-ordered `defaultdict(list)` (line 289). -/
def addToGroups : List (Str × List Str) → Str → Str → List (Str × List Str)
  | [], k, t => [(k, [t])]
  | (k2, ts) :: rest, k, t =>
    if k2 = k then (k2, ts ++ [t]) :: rest else (k2, ts) :: addToGroups rest k t

/-- Groups the collected records of one expression kind by dedup key
(lines 286-289). -/
def groupRecords (records : List ExprRecord) : List (Str × List Str) :=
  records.foldl (fun gs r => addToGroups gs (exprKey r.expression) r.tag) []

/-- Stable insertion for the descending sort by tag-list length: an element
is placed before the first element whose list is not longer (processed right
to left, this preserves encounter order among equal counts, as Python's
stable `sorted` with `reverse=True` does). -/
def insertByCount (x : Str × List Str) : List (Str × List Str) → List (Str × List Str)
  | [] => [x]
  | y :: ys => if y.2.length ≤ x.2.length then x :: y :: ys else y :: insertByCount x ys

/-- Models `sorted(items, key=lambda x: len(x[1]), reverse=True)`
(lines 302-303). -/
def sortByCountDesc (l : List (Str × List Str)) : List (Str × List Str) :=
  l.foldr insertByCount []

/-- One aggregate report entry (lines 307-311). -/
structure AggEntry where
  expression : Str
  count : Nat
  tags : List Str
deriving DecidableEq

/-- Models the per-kind aggregation of `main` (lines 283-311): group records
by exact rendered expression text, rank descending by usage count, and
render `{'expression': e, 'count': len(tags), 'tags': sorted(tags)}`. -/
def aggregateExpressions (records : List ExprRecord) : List AggEntry :=
  (sortByCountDesc (groupRecords records)).map
    (fun p => ⟨p.1, p.2.length, sortStrs p.2⟩)

/-- Symbol line of the C10 witness, a hash symbol holding the C4 witness
entries. -/
def wLine : JVal :=
  JVal.jobj [(kType, JVal.jstr kHash), (kData, JVal.jobj wEntries)]

/-- Record produced by the C10 witness extraction. -/
def wRecord : ExprRecord := ExprRecord.mk (wModule ++ '.' :: wTag) (JVal.jstr wExpr)

/-- Tag of the C6 scenario. -/
def c6Tag : Str := "Module.Tag".data

/-- Expression of the C6 scenario. -/
def c6Expr : Str := "sprintf(\"%d\",$val+1)".data

/-- Expression of the C7 witness, a substitution. -/
def c7Expr : Str := "$val =~ s/a/b/".data

/-- Keys of the grouping dictionary. -/
def groupKeys (gs : List (Str × List Str)) : List Str := gs.map Prod.fst

/-- One grouping step of the fold at line 289. -/
def groupStep (gs : List (Str × List Str)) (r : ExprRecord) : List (Str × List Str) :=
  addToGroups gs (exprKey r.expression) r.tag

/-- Tag of the C5 scenario and counterexample. -/
def c5Tag : Str := "EXIF.Flash".data

/-- Second, distinct tag of the C5 witness. -/
def c5TagB : Str := "Nikon.Flash".data

/-- Expression text shared by the C5 records. -/
def c5Expr : Str := "$val / 2".data

/-- C1: for the dependency graph `A -> [B]`, `B -> [C]` and explicit required
list `[A]`, the resolver returns exactly the set `{A, B, C}`. -/
theorem c1_resolved_closure_ABC :
    resolvedSet c1Graph [strA] = [strA, strB, strC] ∧
    ∀ t : Str, t ∈ resolvedSet c1Graph [strA] ↔ t = strA ∨ t = strB ∨ t = strC := by
  refine ⟨by decide, fun t => ?_⟩
  rw [show resolvedSet c1Graph [strA] = [strA, strB, strC] from by decide]
  simp

theorem closureLoop_passes_le (g : Graph) :
    ∀ (fuel : Nat) (req : List Str) (added : Bool),
      (closureLoop g req fuel added).2.1 ≤ fuel := by
  intro fuel
  induction fuel with
  | zero => intro req added; simp [closureLoop]
  | succ f ih =>
    intro req added
    cases added with
    | false => simp [closureLoop]
    | true =>
      simp only [closureLoop, if_pos]
      exact Nat.succ_le_succ (ih _ _)

/-- C3: on every dependency graph, cyclic ones included, the closure loop of
the resolver is a total function (it is defined by structural recursion on the
remaining fuel) and executes at most 10 passes. -/
theorem c3_closure_pass_cap (g : Graph) (seed : List Str) :
    resolvedPasses g seed ≤ 10 :=
  closureLoop_passes_le g 10 seed true

theorem addDeps_true_snd (deps : List Str) :
    ∀ req : List Str, (addDeps req deps true).2 = true := by
  induction deps with
  | nil => intro req; rfl
  | cons d ds ih =>
    intro req
    by_cases hd : d ∈ req <;> simp [addDeps, hd, ih]

theorem addDeps_snd_false (deps : List Str) :
    ∀ (req : List Str) (added : Bool), (addDeps req deps added).2 = false →
      (addDeps req deps added).1 = req ∧ added = false := by
  induction deps with
  | nil => intro req added h; exact ⟨rfl, h⟩
  | cons d ds ih =>
    intro req added h
    by_cases hd : d ∈ req
    · simp only [addDeps, if_pos hd] at h ⊢
      exact ih req added h
    · simp only [addDeps, if_neg hd] at h
      rw [addDeps_true_snd] at h
      exact absurd h (by simp)

theorem passTags_snd_false (g : Graph) (c : List Str) :
    ∀ (req : List Str) (added : Bool), (passTags g c req added).2 = false →
      (passTags g c req added).1 = req ∧ added = false := by
  induction c with
  | nil => intro req added h; exact ⟨rfl, h⟩
  | cons t ts ih =>
    intro req added h
    cases hl : lookupDeps g t with
    | none =>
      simp only [passTags, hl] at h ⊢
      exact ih req added h
    | some deps =>
      simp only [passTags, hl] at h ⊢
      have h1 := ih _ _ h
      have h2 := addDeps_snd_false deps req added (by rw [h1.2])
      exact ⟨h1.1.trans h2.1, h2.2⟩

theorem closureLoop_not_added (g : Graph) (req : List Str) (fuel : Nat) :
    closureLoop g req fuel false = (req, 0, false) := by
  cases fuel <;> simp [closureLoop]

theorem closureLoop_exit_fixed (g : Graph) :
    ∀ (fuel : Nat) (req : List Str), (closureLoop g req fuel true).2.2 = false →
      passTags g (closureLoop g req fuel true).1 (closureLoop g req fuel true).1 false =
        ((closureLoop g req fuel true).1, false) := by
  intro fuel
  induction fuel with
  | zero => intro req h; exact absurd h (by simp [closureLoop])
  | succ f ih =>
    intro req h
    simp only [closureLoop, if_pos] at h ⊢
    cases hp : (passTags g req req false).2 with
    | false =>
      have hreq := (passTags_snd_false g req req false hp).1
      rw [closureLoop_not_added]
      dsimp only
      rw [hreq]
      exact Prod.ext_iff.mpr ⟨hreq, hp⟩
    | true =>
      rw [hp] at h
      exact ih _ h

theorem closureLoop_fixed_step (g : Graph) (req : List Str) (f : Nat)
    (hfix : passTags g req req false = (req, false)) :
    closureLoop g req (f + 1) true = (req, 1, false) := by
  simp only [closureLoop, if_pos, hfix, closureLoop_not_added]

/-- C2 (amended): whenever the closure loop exits because a full pass added no
tags (the `added` flag is false at exit, i.e. the 10-pass cap was not hit while
additions were still occurring), the output set is a fixed point: running the
resolver again on its own output returns the same set. -/
theorem c2_closure_idempotent_when_settled (g : Graph) (seed : List Str)
    (h : resolvedAdded g seed = false) :
    resolvedSet g (resolvedSet g seed) = resolvedSet g seed := by
  have hfix := closureLoop_exit_fixed g 10 seed h
  show (closureLoop g (closureLoop g seed 10 true).1 10 true).1 =
    (closureLoop g seed 10 true).1
  rw [show closureLoop g (closureLoop g seed 10 true).1 10 true =
        ((closureLoop g seed 10 true).1, 1, false) from
      closureLoop_fixed_step g (closureLoop g seed 10 true).1 9 hfix]

/-- Witness for the amended C2 theorem at a concrete settled instance. -/
theorem c2_closure_idempotent_witness :
    resolvedAdded c2WitnessGraph [['a']] = false ∧
    resolvedSet c2WitnessGraph (resolvedSet c2WitnessGraph [['a']]) =
      resolvedSet c2WitnessGraph [['a']] :=
  ⟨by decide, c2_closure_idempotent_when_settled c2WitnessGraph [['a']] (by decide)⟩

/-- C2 counterexample: an acyclic dependency graph (a chain of twelve tags) on
which the resolver's output is not a fixed point — re-running the closure loop
on its own output adds a tag, because the 10-pass cap truncated the closure. -/
theorem c2_counterexample_chain :
    Acyclic chainGraph ∧
    resolvedSet chainGraph (resolvedSet chainGraph [chainTag 0]) ≠
      resolvedSet chainGraph [chainTag 0] := by
  constructor
  · decide
  · decide

theorem char_toNat_bounds (c : Char) (h : isLowerAlnum c = true) :
    (97 ≤ c.toNat ∧ c.toNat ≤ 122) ∨ (48 ≤ c.toNat ∧ c.toNat ≤ 57) := by
  simp only [isLowerAlnum, Bool.or_eq_true, Bool.and_eq_true, decide_eq_true_eq,
    Char.le_def, UInt32.le_def, BitVec.le_def] at h
  exact h

theorem toLower_fixed_of_isLowerAlnum (c : Char) (h : isLowerAlnum c = true) :
    Char.toLower c = c := by
  have hb := char_toNat_bounds c h
  unfold Char.toLower
  rw [if_neg]
  omega

theorem normalize_fixed_on_normalized (l : Str) (hl : ∀ c ∈ l, isLowerAlnum c = true) :
    (l.map Char.toLower).filter isLowerAlnum = l := by
  induction l with
  | nil => rfl
  | cons c cs ih =>
    have hc := hl c (by simp)
    simp only [List.map_cons, toLower_fixed_of_isLowerAlnum c hc, List.filter_cons, hc,
      if_true]
    rw [ih (fun d hd => hl d (by simp [hd]))]

/-- C8: `normalize_tag_name` lowercases its input and removes every character
outside `[a-z0-9]`, and is idempotent. -/
theorem c8_normalize_lower_strip_idempotent (x : Str) :
    normalize_tag_name x = (x.map Char.toLower).filter isLowerAlnum ∧
    normalize_tag_name (normalize_tag_name x) = normalize_tag_name x := by
  refine ⟨rfl, ?_⟩
  show ((normalize_tag_name x).map Char.toLower).filter isLowerAlnum = _
  exact normalize_fixed_on_normalized _ (fun c hc => List.of_mem_filter hc)

/-- Witness instantiating the C8 theorem at a concrete tag name. -/
theorem c8_normalize_witness :
    normalize_tag_name ['G', 'P', 'S', '-', 'I', 'D'] =
      (['G', 'P', 'S', '-', 'I', 'D'].map Char.toLower).filter isLowerAlnum ∧
    normalize_tag_name (normalize_tag_name ['G', 'P', 'S', '-', 'I', 'D']) =
      normalize_tag_name ['G', 'P', 'S', '-', 'I', 'D'] :=
  c8_normalize_lower_strip_idempotent ['G', 'P', 'S', '-', 'I', 'D']

/-- C9: when the extractor subprocess exits non-zero, the
`CalledProcessError` is caught and the function returns empty lists for all
three expression kinds; no exception escapes, so the run continues. -/
theorem c9_subprocess_failure_yields_empty (moduleName : Str) (priorityTags : List Str) :
    extract_module_expressions moduleName priorityTags SubprocResult.failed =
      Except.ok ⟨[], [], []⟩ := rfl

theorem exprRecords_good (fullName : Str) (defKvs : List (Str × JVal)) (key : Str) :
    ∀ r ∈ exprRecords fullName defKvs key, GoodRec r := by
  intro r hr
  unfold exprRecords at hr
  split at hr
  · rename_i s heq
    by_cases hi : hasIndicator s = true
    · rw [if_pos hi] at hr
      simp only [List.mem_singleton] at hr
      exact ⟨s, by rw [hr], hi⟩
    · rw [if_neg hi] at hr
      simp at hr
  · simp at hr

theorem mem_allRecords_collect (r : ExprRecord) (fullName : Str)
    (defKvs : List (Str × JVal)) :
    r ∈ allRecords (collectDefExprs fullName defKvs) ↔
      r ∈ exprRecords fullName defKvs kValueConv ∨
      r ∈ exprRecords fullName defKvs kPrintConv ∨
      r ∈ exprRecords fullName defKvs kCondition := by
  unfold allRecords collectDefExprs
  simp [List.mem_append]

theorem collectDefExprs_good (fullName : Str) (defKvs : List (Str × JVal)) :
    ∀ r ∈ allRecords (collectDefExprs fullName defKvs), GoodRec r := by
  intro r hr
  rcases (mem_allRecords_collect r fullName defKvs).mp hr with h | h | h <;>
    exact exprRecords_good _ _ _ _ h

theorem emptyExtraction_good : ∀ r ∈ allRecords emptyExtraction, GoodRec r := by
  intro r hr
  simp [allRecords, emptyExtraction] at hr

theorem mem_allRecords_append (r : ExprRecord) (a b : Extraction) :
    r ∈ allRecords (a.append b) ↔ r ∈ allRecords a ∨ r ∈ allRecords b := by
  unfold allRecords Extraction.append
  simp only [List.mem_append]
  tauto

theorem append_good (a b : Extraction)
    (ha : ∀ r ∈ allRecords a, GoodRec r) (hb : ∀ r ∈ allRecords b, GoodRec r) :
    ∀ r ∈ allRecords (a.append b), GoodRec r := by
  intro r hr
  rcases (mem_allRecords_append r a b).mp hr with h | h
  · exact ha r h
  · exact hb r h

theorem extractHashEntries_good (m : Str) (np : List Str) :
    ∀ entries : List (Str × JVal),
      ∀ r ∈ allRecords (extractHashEntries m np entries), GoodRec r := by
  intro entries
  induction entries with
  | nil => exact emptyExtraction_good
  | cons e rest ih =>
    obtain ⟨tagName, tagDef⟩ := e
    cases tagDef with
    | jnull => exact ih
    | jbool b => exact ih
    | jnum n => exact ih
    | jstr s => exact ih
    | jarr xs => exact ih
    | jobj defKvs =>
      by_cases hm : normalize_tag_name tagName ∈ np
      · simp only [extractHashEntries, if_pos hm]
        exact append_good _ _ (collectDefExprs_good _ _) ih
      · simp only [extractHashEntries, if_neg hm]
        exact ih

theorem extractArrayItems_good (m : Str) (np : List Str) :
    ∀ (items : List JVal) (ext : Extraction),
      extractArrayItems m np items = Except.ok ext →
      ∀ r ∈ allRecords ext, GoodRec r := by
  intro items
  induction items with
  | nil =>
    intro ext h
    simp only [extractArrayItems, Except.ok.injEq] at h
    subst h
    exact emptyExtraction_good
  | cons item rest ih =>
    intro ext h
    cases item with
    | jnull => exact ih ext h
    | jbool b => exact ih ext h
    | jnum n => exact ih ext h
    | jstr s => exact ih ext h
    | jarr xs => exact ih ext h
    | jobj kvs =>
      simp only [extractArrayItems] at h
      split at h
      · exact ih ext h
      · split at h
        · split at h
          · exact absurd h (by simp)
          · rename_i r0 hrec
            simp only [Except.ok.injEq] at h
            subst h
            exact append_good _ _ (collectDefExprs_good _ _) (ih r0 hrec)
        · exact ih ext h
      · exact absurd h (by simp)

theorem extractSymbol_good (m : Str) (np : List Str) (sym : JVal) (ext : Extraction)
    (h : extractSymbol m np sym = Except.ok ext) :
    ∀ r ∈ allRecords ext, GoodRec r := by
  cases sym with
  | jnull => injection h with h; subst h; exact emptyExtraction_good
  | jbool b => injection h with h; subst h; exact emptyExtraction_good
  | jnum n => injection h with h; subst h; exact emptyExtraction_good
  | jstr s => injection h with h; subst h; exact emptyExtraction_good
  | jarr xs => injection h with h; subst h; exact emptyExtraction_good
  | jobj kvs =>
    simp only [extractSymbol] at h
    split at h
    · split at h
      · split at h
        · injection h with h; subst h; exact extractHashEntries_good m np _
        · injection h with h; subst h; exact emptyExtraction_good
      · split at h
        · split at h
          · rename_i items hd
            exact extractArrayItems_good m np items ext h
          · injection h with h; subst h; exact emptyExtraction_good
        · injection h with h; subst h; exact emptyExtraction_good
    · injection h with h; subst h; exact emptyExtraction_good

theorem extractSymbols_good (m : Str) (np : List Str) :
    ∀ (syms : List JVal) (ext : Extraction),
      extractSymbols m np syms = Except.ok ext →
      ∀ r ∈ allRecords ext, GoodRec r := by
  intro syms
  induction syms with
  | nil =>
    intro ext h
    simp only [extractSymbols, Except.ok.injEq] at h
    subst h
    exact emptyExtraction_good
  | cons sym rest ih =>
    intro ext h
    simp only [extractSymbols] at h
    cases hs : extractSymbol m np sym with
    | error e => rw [hs] at h; simp at h
    | ok cur =>
      rw [hs] at h
      cases hr : extractSymbols m np rest with
      | error e => rw [hr] at h; simp at h
      | ok r0 =>
        rw [hr] at h
        simp only [Except.ok.injEq] at h
        subst h
        exact append_good _ _ (extractSymbol_good m np sym cur hs) (ih r0 hr)

theorem extract_records_good (m : Str) (tags : List Str) (sp : SubprocResult)
    (ext : Extraction) (h : extract_module_expressions m tags sp = Except.ok ext) :
    ∀ r ∈ allRecords ext, GoodRec r := by
  cases sp with
  | failed =>
    simp only [extract_module_expressions, Except.ok.injEq] at h
    subst h
    exact emptyExtraction_good
  | output lines => exact extractSymbols_good _ _ _ _ h

theorem collect_ofKind (fullName : Str) (defKvs : List (Str × JVal)) (k : ExprKind) :
    (collectDefExprs fullName defKvs).ofKind k = exprRecords fullName defKvs (kindKey k) := by
  cases k <;> rfl

theorem append_ofKind (a b : Extraction) (k : ExprKind) :
    (a.append b).ofKind k = a.ofKind k ++ b.ofKind k := by
  cases k <;> rfl

theorem exprRecords_of_lookup (fullName : Str) (defKvs : List (Str × JVal)) (key s : Str)
    (hl : jlookup defKvs key = some (JVal.jstr s)) (hi : hasIndicator s = true) :
    exprRecords fullName defKvs key = [⟨fullName, JVal.jstr s⟩] := by
  simp only [exprRecords, hl]
  rw [if_pos hi]

theorem extractHashEntries_mem (m : Str) (np : List Str) (k : ExprKind) :
    ∀ (entries : List (Str × JVal)) (tagName : Str) (defKvs : List (Str × JVal)) (s : Str),
      (tagName, JVal.jobj defKvs) ∈ entries →
      normalize_tag_name tagName ∈ np →
      jlookup defKvs (kindKey k) = some (JVal.jstr s) →
      hasIndicator s = true →
      ExprRecord.mk (m ++ '.' :: tagName) (JVal.jstr s) ∈
        (extractHashEntries m np entries).ofKind k := by
  intro entries
  induction entries with
  | nil => intro tagName defKvs s hmem; simp at hmem
  | cons e rest ih =>
    intro tagName defKvs s hmem hnorm hl hi
    rcases List.mem_cons.mp hmem with heq | hmem2
    · subst heq
      simp only [extractHashEntries, if_pos hnorm, append_ofKind, collect_ofKind]
      rw [exprRecords_of_lookup _ _ _ _ hl hi]
      exact List.mem_append_left _ (List.mem_singleton_self _)
    · obtain ⟨tn, td⟩ := e
      have hrec := ih tagName defKvs s hmem2 hnorm hl hi
      cases td with
      | jnull => exact hrec
      | jbool b => exact hrec
      | jnum n => exact hrec
      | jstr s2 => exact hrec
      | jarr xs => exact hrec
      | jobj d =>
        by_cases hm2 : normalize_tag_name tn ∈ np
        · simp only [extractHashEntries, if_pos hm2, append_ofKind]
          exact List.mem_append_right _ hrec
        · simp only [extractHashEntries, if_neg hm2]
          exact hrec

theorem extractArrayItems_mem (m : Str) (np : List Str) (k : ExprKind) :
    ∀ (items : List JVal) (kvs : List (Str × JVal)) (tagName s : Str) (ext : Extraction),
      JVal.jobj kvs ∈ items →
      jlookup kvs kName = some (JVal.jstr tagName) →
      normalize_tag_name tagName ∈ np →
      jlookup kvs (kindKey k) = some (JVal.jstr s) →
      hasIndicator s = true →
      extractArrayItems m np items = Except.ok ext →
      ExprRecord.mk (m ++ '.' :: tagName) (JVal.jstr s) ∈ ext.ofKind k := by
  intro items
  induction items with
  | nil => intro kvs tagName s ext hmem; simp at hmem
  | cons item rest ih =>
    intro kvs tagName s ext hmem hname hnorm hl hi hok
    rcases List.mem_cons.mp hmem with heq | hmem2
    · subst heq
      simp only [extractArrayItems, hname] at hok
      rw [if_pos hnorm] at hok
      split at hok
      · exact absurd hok (by simp)
      · rename_i r0 hrec
        simp only [Except.ok.injEq] at hok
        subst hok
        rw [append_ofKind, collect_ofKind]
        apply List.mem_append_left
        rw [exprRecords_of_lookup _ _ _ _ hl hi]
        exact List.mem_singleton_self _
    · cases item with
      | jnull => exact ih _ _ _ _ hmem2 hname hnorm hl hi hok
      | jbool b => exact ih _ _ _ _ hmem2 hname hnorm hl hi hok
      | jnum n => exact ih _ _ _ _ hmem2 hname hnorm hl hi hok
      | jstr s2 => exact ih _ _ _ _ hmem2 hname hnorm hl hi hok
      | jarr xs => exact ih _ _ _ _ hmem2 hname hnorm hl hi hok
      | jobj kvs2 =>
        simp only [extractArrayItems] at hok
        split at hok
        · exact ih _ _ _ _ hmem2 hname hnorm hl hi hok
        · split at hok
          · split at hok
            · exact absurd hok (by simp)
            · rename_i r0 hrec
              simp only [Except.ok.injEq] at hok
              subst hok
              rw [append_ofKind]
              exact List.mem_append_right _ (ih _ _ _ _ hmem2 hname hnorm hl hi hrec)
          · exact ih _ _ _ _ hmem2 hname hnorm hl hi hok
        · exact absurd hok (by simp)

/-- C4: the extractor's inclusion test.  Part one (exclusion): every record a
successful extraction returns carries a string expression containing at least
one indicator character, so an expression whose string has none of
`$ ( ? / " =` is never included, whatever its tag.  Parts two and three
(inclusion): in a processed hash or array symbol, a string expression with an
indicator character on a tag whose normalized name matches is included. -/
theorem c4_indicator_gate :
    (∀ (m : Str) (tags : List Str) (sp : SubprocResult) (ext : Extraction),
       extract_module_expressions m tags sp = Except.ok ext →
       ∀ r ∈ allRecords ext, ∃ s, r.expression = JVal.jstr s ∧ hasIndicator s = true) ∧
    (∀ (m : Str) (np : List Str) (k : ExprKind) (entries : List (Str × JVal))
       (tagName : Str) (defKvs : List (Str × JVal)) (s : Str),
       (tagName, JVal.jobj defKvs) ∈ entries →
       normalize_tag_name tagName ∈ np →
       jlookup defKvs (kindKey k) = some (JVal.jstr s) →
       hasIndicator s = true →
       ExprRecord.mk (m ++ '.' :: tagName) (JVal.jstr s) ∈
         (extractHashEntries m np entries).ofKind k) ∧
    (∀ (m : Str) (np : List Str) (k : ExprKind) (items : List JVal)
       (kvs : List (Str × JVal)) (tagName s : Str) (ext : Extraction),
       JVal.jobj kvs ∈ items →
       jlookup kvs kName = some (JVal.jstr tagName) →
       normalize_tag_name tagName ∈ np →
       jlookup kvs (kindKey k) = some (JVal.jstr s) →
       hasIndicator s = true →
       extractArrayItems m np items = Except.ok ext →
       ExprRecord.mk (m ++ '.' :: tagName) (JVal.jstr s) ∈ ext.ofKind k) :=
  ⟨extract_records_good, extractHashEntries_mem, extractArrayItems_mem⟩

/-- Witness applying the C4 inclusion part at a concrete hash symbol. -/
theorem c4_indicator_gate_witness :
    ExprRecord.mk (wModule ++ '.' :: wTag) (JVal.jstr wExpr) ∈
      (extractHashEntries wModule [normalize_tag_name wTag] wEntries).ofKind ExprKind.cond :=
  c4_indicator_gate.2.1 wModule [normalize_tag_name wTag] ExprKind.cond wEntries wTag
    wDefKvs wExpr (by simp [wEntries]) (List.mem_singleton_self _) rfl (by decide)

/-- C10: every expression value in the records a successful extraction
returns is a string, so the structured-mapping branch of the
`hash_lookups` test (line 240) and the aggregator's `json.dumps` branch
(line 288) are never taken on extractor output. -/
theorem c10_extractor_strings_only (m : Str) (tags : List Str) (sp : SubprocResult)
    (ext : Extraction) (h : extract_module_expressions m tags sp = Except.ok ext) :
    ∀ r ∈ allRecords ext,
      (∃ s, r.expression = JVal.jstr s) ∧
      isDictJV r.expression = false ∧
      exprKey r.expression = pyStr r.expression ∧
      classifyHashLookups r = (pyStr r.expression).contains lbrace := by
  intro r hr
  obtain ⟨s, hs, _⟩ := extract_records_good m tags sp ext h r hr
  refine ⟨⟨s, hs⟩, ?_, ?_, ?_⟩
  · rw [hs]; rfl
  · rw [hs]; rfl
  · unfold classifyHashLookups
    rw [hs]; rfl

/-- Witness applying the C10 theorem to a concrete one-symbol extraction. -/
theorem c10_strings_only_witness :
    (∃ s, wRecord.expression = JVal.jstr s) ∧
    isDictJV wRecord.expression = false ∧
    exprKey wRecord.expression = pyStr wRecord.expression ∧
    classifyHashLookups wRecord = (pyStr wRecord.expression).contains lbrace :=
  c10_extractor_strings_only wModule [wTag] (SubprocResult.output [some wLine])
    ⟨[], [], [wRecord]⟩ rfl wRecord (List.mem_singleton_self _)

/-- C6: classification categories overlap — `sprintf("%d",$val+1)` is placed
in the sprintf, arithmetic and function_calls categories at once. -/
theorem c6_nonexclusive_categories :
    (analyze_expression_patterns [⟨c6Tag, JVal.jstr c6Expr⟩]).sprintf = some ([c6Tag], 1) ∧
    (analyze_expression_patterns [⟨c6Tag, JVal.jstr c6Expr⟩]).arithmetic = some ([c6Tag], 1) ∧
    (analyze_expression_patterns [⟨c6Tag, JVal.jstr c6Expr⟩]).functionCalls =
      some ([c6Tag], 1) := by
  refine ⟨?_, ?_, ?_⟩ <;> decide

/-- C7: an expression lands in the regex_match or regex_substitute bucket
only if it contains both `=~` and `/`; with `s/` it goes to substitute,
without it to match; the two buckets are mutually exclusive. -/
theorem c7_regex_buckets (e : Str) :
    ((classifyRegexMatch e = true ∨ classifyRegexSubstitute e = true) →
      (containsSub ['=', '~'] e = true ∧ e.contains '/' = true)) ∧
    (classifyRegexSubstitute e = true ↔
      (containsSub ['=', '~'] e = true ∧ e.contains '/' = true ∧
        containsSub ['s', '/'] e = true)) ∧
    (classifyRegexMatch e = true ↔
      (containsSub ['=', '~'] e = true ∧ e.contains '/' = true ∧
        containsSub ['s', '/'] e = false)) ∧
    ¬(classifyRegexMatch e = true ∧ classifyRegexSubstitute e = true) := by
  unfold classifyRegexMatch classifyRegexSubstitute classifyRegexCond
  cases h1 : containsSub ['=', '~'] e <;> cases h2 : e.contains '/' <;>
    cases h3 : containsSub ['s', '/'] e <;> simp

/-- Witness applying the C7 theorem at a substitution expression. -/
theorem c7_regex_buckets_witness :
    containsSub ['=', '~'] c7Expr = true ∧ c7Expr.contains '/' = true :=
  (c7_regex_buckets c7Expr).1 (Or.inr (by decide))

theorem findTags_addToGroups (k t : Str) :
    ∀ (gs : List (Str × List Str)) (k2 : Str),
      findTags (addToGroups gs k t) k2 =
        if k2 = k then some ((findTags gs k).getD [] ++ [t]) else findTags gs k2 := by
  intro gs
  induction gs with
  | nil =>
    intro k2
    by_cases h : k2 = k
    · subst h; simp [addToGroups, findTags]
    · simp [addToGroups, findTags, h, Ne.symm h]
  | cons p rest ih =>
    obtain ⟨k3, ts⟩ := p
    intro k2
    by_cases h3 : k3 = k
    · subst h3
      by_cases h2 : k2 = k3
      · subst h2
        simp [addToGroups, findTags]
      · simp [addToGroups, findTags, h2, Ne.symm h2]
    · by_cases h2 : k2 = k
      · subst h2
        simp [addToGroups, findTags, h3, ih, Ne.symm h3]
      · by_cases h32 : k3 = k2
        · subst h32
          simp [addToGroups, findTags, h2, h3, ih]
        · simp [addToGroups, findTags, h2, h3, h32, ih]

theorem findTags_eq_none_iff : ∀ (gs : List (Str × List Str)) (k : Str),
    findTags gs k = none ↔ k ∉ groupKeys gs := by
  intro gs
  induction gs with
  | nil => intro k; simp [findTags, groupKeys]
  | cons p rest ih =>
    obtain ⟨k3, ts⟩ := p
    intro k
    by_cases h3 : k3 = k
    · subst h3; simp [findTags, groupKeys]
    · simp [findTags, groupKeys, h3, Ne.symm h3, ih]

theorem groupKeys_addToGroups (k t : Str) :
    ∀ gs : List (Str × List Str),
      groupKeys (addToGroups gs k t) =
        if k ∈ groupKeys gs then groupKeys gs else groupKeys gs ++ [k] := by
  intro gs
  induction gs with
  | nil => simp [addToGroups, groupKeys]
  | cons p rest ih =>
    obtain ⟨k3, ts⟩ := p
    by_cases h3 : k3 = k
    · subst h3; simp [addToGroups, groupKeys]
    · have hadd : addToGroups ((k3, ts) :: rest) k t = (k3, ts) :: addToGroups rest k t := by
        rw [addToGroups, if_neg h3]
      rw [hadd]
      have hmem : (k ∈ groupKeys ((k3, ts) :: rest)) ↔ k ∈ groupKeys rest := by
        simp [groupKeys, Ne.symm h3]
      by_cases hk : k ∈ groupKeys rest
      · rw [if_pos (hmem.mpr hk)]
        show k3 :: groupKeys (addToGroups rest k t) = _
        rw [ih, if_pos hk]
        simp [groupKeys]
      · rw [if_neg (fun hh => hk (hmem.mp hh))]
        show k3 :: groupKeys (addToGroups rest k t) = _
        rw [ih, if_neg hk]
        simp [groupKeys]

theorem nodup_addToGroups (k t : Str) (gs : List (Str × List Str))
    (h : (groupKeys gs).Nodup) : (groupKeys (addToGroups gs k t)).Nodup := by
  rw [groupKeys_addToGroups]
  by_cases hk : k ∈ groupKeys gs
  · rwa [if_pos hk]
  · rw [if_neg hk]
    simp [List.nodup_append, h, hk, List.disjoint_left]

theorem groupRecords_eq_foldl (records : List ExprRecord) :
    groupRecords records = records.foldl groupStep [] := rfl

theorem foldl_groupStep_getD (k : Str) :
    ∀ (records : List ExprRecord) (gs : List (Str × List Str)),
      (findTags (records.foldl groupStep gs) k).getD [] =
        (findTags gs k).getD [] ++
          (records.filter (fun r => decide (exprKey r.expression = k))).map
            (fun r => r.tag) := by
  intro records
  induction records with
  | nil => intro gs; simp
  | cons r rest ih =>
    intro gs
    simp only [List.foldl_cons, List.filter_cons]
    by_cases h : exprKey r.expression = k
    · rw [if_pos (by simpa using h)]
      show (findTags (rest.foldl groupStep (groupStep gs r)) k).getD [] = _
      rw [ih (groupStep gs r)]
      show (findTags (addToGroups gs (exprKey r.expression) r.tag) k).getD [] ++ _ = _
      rw [findTags_addToGroups, if_pos h.symm]
      simp [h]
    · rw [if_neg (by simpa using h)]
      show (findTags (rest.foldl groupStep (groupStep gs r)) k).getD [] = _
      rw [ih (groupStep gs r)]
      show (findTags (addToGroups gs (exprKey r.expression) r.tag) k).getD [] ++ _ = _
      rw [findTags_addToGroups, if_neg (fun hh => h hh.symm)]

theorem foldl_groupStep_none (k : Str) :
    ∀ (records : List ExprRecord) (gs : List (Str × List Str)),
      (findTags (records.foldl groupStep gs) k = none ↔
        (findTags gs k = none ∧
          records.filter (fun r => decide (exprKey r.expression = k)) = [])) := by
  intro records
  induction records with
  | nil => intro gs; simp
  | cons r rest ih =>
    intro gs
    simp only [List.foldl_cons, List.filter_cons]
    by_cases h : exprKey r.expression = k
    · rw [if_pos (by simpa using h)]
      show findTags (rest.foldl groupStep (groupStep gs r)) k = none ↔ _
      rw [ih (groupStep gs r)]
      show findTags (addToGroups gs (exprKey r.expression) r.tag) k = none ∧ _ ↔ _
      rw [findTags_addToGroups, if_pos h.symm]
      simp
    · rw [if_neg (by simpa using h)]
      show findTags (rest.foldl groupStep (groupStep gs r)) k = none ↔ _
      rw [ih (groupStep gs r)]
      show findTags (addToGroups gs (exprKey r.expression) r.tag) k = none ∧ _ ↔ _
      rw [findTags_addToGroups, if_neg (fun hh => h hh.symm)]

theorem findTags_groupRecords (records : List ExprRecord) (k : Str) :
    findTags (groupRecords records) k =
      if (records.filter (fun r => decide (exprKey r.expression = k))).map
          (fun r => r.tag) = [] then none
      else some ((records.filter (fun r => decide (exprKey r.expression = k))).map
        (fun r => r.tag)) := by
  have hg := foldl_groupStep_getD k records []
  have hn := foldl_groupStep_none k records []
  rw [groupRecords_eq_foldl]
  by_cases h : (records.filter (fun r => decide (exprKey r.expression = k))).map
      (fun r => r.tag) = []
  · rw [if_pos h]
    rw [hn]
    refine ⟨rfl, ?_⟩
    simpa using h
  · rw [if_neg h]
    cases ho : findTags (records.foldl groupStep []) k with
    | none =>
      rw [hn] at ho
      exact absurd (by simpa using ho.2) h
    | some ts =>
      rw [ho] at hg
      simp only [Option.getD_some, Option.getD_none, findTags, List.nil_append] at hg
      rw [hg]

theorem nodup_groupKeys_foldl :
    ∀ (records : List ExprRecord) (gs : List (Str × List Str)),
      (groupKeys gs).Nodup → (groupKeys (records.foldl groupStep gs)).Nodup := by
  intro records
  induction records with
  | nil => intro gs h; simpa using h
  | cons r rest ih =>
    intro gs h
    exact ih (groupStep gs r) (nodup_addToGroups _ _ gs h)

theorem filter_groups_of_findTags (k : Str) :
    ∀ gs : List (Str × List Str), (groupKeys gs).Nodup →
      gs.filter (fun p => decide (p.1 = k)) =
        (match findTags gs k with
          | some ts => [(k, ts)]
          | none => []) := by
  intro gs
  induction gs with
  | nil => intro h; rfl
  | cons p rest ih =>
    obtain ⟨k3, ts⟩ := p
    intro h
    have htail : (groupKeys rest).Nodup := (List.nodup_cons.mp h).2
    by_cases h3 : k3 = k
    · subst h3
      have hnotin : k3 ∉ groupKeys rest := (List.nodup_cons.mp h).1
      have hnone : findTags rest k3 = none := (findTags_eq_none_iff rest k3).mpr hnotin
      have hrest := ih htail
      rw [hnone] at hrest
      have hft : findTags ((k3, ts) :: rest) k3 = some ts := by
        rw [findTags, if_pos rfl]
      rw [hft]
      show List.filter (fun p => decide (p.1 = k3)) ((k3, ts) :: rest) = [(k3, ts)]
      rw [List.filter_cons, if_pos (by simp), hrest]
    · have hrest := ih htail
      have hft : findTags ((k3, ts) :: rest) k = findTags rest k := by
        rw [findTags, if_neg h3]
      rw [hft]
      rw [List.filter_cons, if_neg (by simp [h3])]
      exact hrest

theorem insertByCount_perm (x : Str × List Str) :
    ∀ l : List (Str × List Str), (insertByCount x l).Perm (x :: l) := by
  intro l
  induction l with
  | nil => exact List.Perm.refl _
  | cons y ys ih =>
    by_cases h : y.2.length ≤ x.2.length
    · rw [insertByCount, if_pos h]
    · rw [insertByCount, if_neg h]
      exact (ih.cons y).trans (List.Perm.swap x y ys)

theorem sortByCountDesc_perm (l : List (Str × List Str)) :
    (sortByCountDesc l).Perm l := by
  induction l with
  | nil => exact List.Perm.refl _
  | cons x xs ih =>
    show (insertByCount x (sortByCountDesc xs)).Perm (x :: xs)
    exact (insertByCount_perm x (sortByCountDesc xs)).trans (ih.cons x)

theorem nodup_groupRecords (records : List ExprRecord) :
    (groupKeys (groupRecords records)).Nodup := by
  rw [groupRecords_eq_foldl]
  exact nodup_groupKeys_foldl records [] (by simp [groupKeys])

/-- C5 (amended): the aggregation step merges all collected records sharing
one dedup-key text into exactly one entry whose tags list is the combined
sorted tag list; the entry's count is the number of collected records with
that text — the raw occurrence count — which equals the number of distinct
tags exactly when those records carry pairwise-distinct tags. -/
theorem c5_dedup_by_text (records : List ExprRecord) (k : Str) (occ : List Str)
    (hocc : (records.filter (fun r => decide (exprKey r.expression = k))).map
        (fun r => r.tag) = occ) :
    (occ ≠ [] →
      (aggregateExpressions records).filter (fun a => decide (a.expression = k)) =
        [AggEntry.mk k occ.length (sortStrs occ)]) ∧
    (occ = [] →
      (aggregateExpressions records).filter (fun a => decide (a.expression = k)) = []) ∧
    (occ.Nodup → occ.length = occ.dedup.length) := by
  have hft := findTags_groupRecords records k
  rw [hocc] at hft
  have hnd := nodup_groupRecords records
  have hfilmatch := filter_groups_of_findTags k (groupRecords records) hnd
  have hmapfilter :
      (aggregateExpressions records).filter (fun a => decide (a.expression = k)) =
        ((sortByCountDesc (groupRecords records)).filter
            (fun p => decide (p.1 = k))).map
          (fun p => AggEntry.mk p.1 p.2.length (sortStrs p.2)) := by
    unfold aggregateExpressions
    rw [List.filter_map]
    rfl
  have hperm :=
    (sortByCountDesc_perm (groupRecords records)).filter (fun p => decide (p.1 = k))
  refine ⟨?_, ?_, ?_⟩
  · intro hne
    rw [if_neg hne] at hft
    have hfil2 : (groupRecords records).filter (fun p => decide (p.1 = k)) = [(k, occ)] := by
      rw [hfilmatch, hft]
    rw [hfil2] at hperm
    have hs := List.perm_singleton.mp hperm
    rw [hmapfilter, hs]
    rfl
  · intro he
    rw [if_pos he] at hft
    have hfil2 : (groupRecords records).filter (fun p => decide (p.1 = k)) = [] := by
      rw [hfilmatch, hft]
    rw [hfil2] at hperm
    have hs := List.Perm.eq_nil hperm
    rw [hmapfilter, hs]
    rfl
  · intro hnodup
    rw [List.Nodup.dedup hnodup]

/-- C5 counterexample: the same tag identifier collected twice with
identical expression text yields one aggregate entry whose count is the raw
occurrence count 2, although only one distinct tag uses that text — the
count is not the number of distinct tags. -/
theorem c5_count_counterexample :
    aggregateExpressions [⟨c5Tag, JVal.jstr c5Expr⟩, ⟨c5Tag, JVal.jstr c5Expr⟩] =
      [AggEntry.mk c5Expr 2 [c5Tag, c5Tag]] ∧
    [c5Tag, c5Tag].dedup.length = 1 := by
  refine ⟨?_, ?_⟩ <;> decide

/-- Witness for the amended C5 theorem: two distinct tags sharing expression
text produce exactly one entry, with count 2, listing both tags. -/
theorem c5_dedup_by_text_witness :
    (aggregateExpressions [⟨c5Tag, JVal.jstr c5Expr⟩, ⟨c5TagB, JVal.jstr c5Expr⟩]).filter
        (fun a => decide (a.expression = c5Expr)) =
      [AggEntry.mk c5Expr ([c5Tag, c5TagB]).length (sortStrs [c5Tag, c5TagB])] :=
  (c5_dedup_by_text [⟨c5Tag, JVal.jstr c5Expr⟩, ⟨c5TagB, JVal.jstr c5Expr⟩] c5Expr
    [c5Tag, c5TagB] (by decide)).1 (by decide)

end ExifOxide
